import Mathlib

/-!
# FBDDesigner — verification of the scene interaction core

Shallow embedding, in Lean 4 over exact rational arithmetic, of the
scene-interaction core of the FBDDesigner drawing editor:

* the screen ↔ canvas coordinate transform and zoom-to-cursor
  (`useCanvasState`: `screenToCanvas`, `canvasToScreen`, `zoomAt`);
* the snapshot undo/redo history (`useUndoRedo`: `addToHistory`, `undo`,
  `redo`);
* per-shape hit testing and top-most shape lookup
  (`utils/hitTesting.ts`: `hitTestRectangle`, `hitTestCircle`,
  `hitTestLine`, `hitTestArrow`, `hitTestPencil`, `hitTestText`,
  `findShapeAtPoint`);
* marquee selection (`useSelection.finishSelection` together with
  `utils/shapeSelection.isShapeInSelection`);
* the drawing-session finalisation (`useDrawing.finishDrawing`) and the
  shape factories (`RectangleDrawer.createRectangle` and friends);
* the text-caret arrow-key navigation of the monolithic `Canvas`
  component's `handleKeyDown`.

JavaScript numbers are modelled as exact rationals (`ℚ`).  The two
external capabilities consumed by the code are passed as parameters:
`Math.sqrt` (needed only for the *value* of a circle radius) is an
arbitrary function `ℚ → ℚ`, and the 2D context's `measureText` is a
`Ctx` record carrying a width-measure `String → ℚ`.  Square-root
*comparisons* (`Math.sqrt e ≤ c`) are decided exactly by `sqrtLe`,
which is proved below to agree with the real square root.
-/

/-! ## Points and the coordinate transform (`useCanvasState`) -/

/-- A 2D point, as the `Point` interface `{ x: number; y: number }`. -/
structure Pt where
  x : ℚ
  y : ℚ
deriving DecidableEq, Repr

/-- `screenToCanvas` from `useCanvasState`:
`{ x: (point.x - offset.x) / scale, y: (point.y - offset.y) / scale }`. -/
def screenToCanvas (scale : ℚ) (offset : Pt) (point : Pt) : Pt :=
  { x := (point.x - offset.x) / scale
    y := (point.y - offset.y) / scale }

/-- `canvasToScreen` from `useCanvasState`:
`{ x: point.x * scale + offset.x, y: point.y * scale + offset.y }`. -/
def canvasToScreen (scale : ℚ) (offset : Pt) (point : Pt) : Pt :=
  { x := point.x * scale + offset.x
    y := point.y * scale + offset.y }

/-- `zoomAt` from `useCanvasState`.  Returns the new `(scale, offset)` pair:
`newScale = Math.max(0.1, Math.min(30, scale * scaleFactor))`, and the new
offset is `point - (point - offset) * (newScale / scale)` componentwise. -/
def zoomAt (scale : ℚ) (offset : Pt) (point : Pt) (scaleFactor : ℚ) : ℚ × Pt :=
  let newScale := max (1/10) (min 30 (scale * scaleFactor))
  let scaleChange := newScale / scale
  (newScale,
   { x := point.x - (point.x - offset.x) * scaleChange
     y := point.y - (point.y - offset.y) * scaleChange })

/-! ## Snapshot history (`useUndoRedo`)

The hook keeps `history : Shape[][]` and `historyIndex : number`.  The model
is generic in the snapshot type `α` (the source stores shape-list snapshots;
none of their structure is consulted by the history logic). -/

/-- The state of the `useUndoRedo` hook: the snapshot list and the index. -/
@[ext]
structure HistoryState (α : Type) where
  history : List α
  index : ℕ
deriving DecidableEq, Repr

/-- `useUndoRedo(initialShapes)` initialises `history = [initialShapes]`,
`historyIndex = 0`. -/
def freshHistory {α : Type} (initialShapes : α) : HistoryState α :=
  { history := [initialShapes], index := 0 }

/-- `addToHistory(newShapes)`:
`newHistory = prev.slice(0, historyIndex + 1)` with `newShapes` pushed, then
`newHistory.length > 50 ? newHistory.slice(1) : newHistory`; the index becomes
`historyIndex + 1` capped at `49`. -/
def addToHistory {α : Type} (s : HistoryState α) (newShapes : α) : HistoryState α :=
  let newHistory := s.history.take (s.index + 1) ++ [newShapes]
  { history := if newHistory.length > 50 then newHistory.drop 1 else newHistory
    index := if s.index + 1 > 49 then 49 else s.index + 1 }

/-- `undo()`: if `historyIndex > 0`, decrement the index and return the
snapshot there; otherwise return `null` and leave the state unchanged.  The
returned pair is (returned snapshot, next state). -/
def undo {α : Type} (s : HistoryState α) : Option α × HistoryState α :=
  if s.index > 0 then
    (s.history.get? (s.index - 1), { s with index := s.index - 1 })
  else
    (none, s)

/-- `redo()`: if `historyIndex < history.length - 1`, increment the index and
return the snapshot there; otherwise return `null` and leave the state
unchanged. -/
def redo {α : Type} (s : HistoryState α) : Option α × HistoryState α :=
  if s.index < s.history.length - 1 then
    (s.history.get? (s.index + 1), { s with index := s.index + 1 })
  else
    (none, s)

/-- A sequence of commits (`addToHistory` calls), applied left to right. -/
def commitAll {α : Type} (s : HistoryState α) (snaps : List α) : HistoryState α :=
  snaps.foldl addToHistory s

/-- `undo` applied `n` times (keeping only the state). -/
def undoTimes {α : Type} (s : HistoryState α) : ℕ → HistoryState α
  | 0 => s
  | n + 1 => undoTimes (undo s).2 n

/-- `redo` applied `n` times (keeping only the state). -/
def redoTimes {α : Type} (s : HistoryState α) : ℕ → HistoryState α
  | 0 => s
  | n + 1 => redoTimes (redo s).2 n

/-- The snapshot currently in effect: `history[historyIndex]`. -/
def currentSnapshot {α : Type} (s : HistoryState α) : Option α :=
  s.history.get? s.index

/-- Invariant of commit-only histories: the index sits on the last snapshot
and the list is nonempty and capped at 50. -/
def CommitInv {α : Type} (s : HistoryState α) : Prop :=
  s.index + 1 = s.history.length ∧ s.history.length ≤ 50

/-- One user-facing history operation of the `useUndoRedo` hook. -/
inductive HistOp (α : Type) where
  | commit (snapshot : α)
  | undoOp
  | redoOp

/-- Apply one history operation (the state part of the hook's update). -/
def applyHistOp {α : Type} (s : HistoryState α) : HistOp α → HistoryState α
  | .commit c => addToHistory s c
  | .undoOp => (undo s).2
  | .redoOp => (redo s).2

/-- Apply a sequence of history operations, left to right. -/
def applyHistOps {α : Type} (s : HistoryState α) (ops : List (HistOp α)) : HistoryState α :=
  ops.foldl applyHistOp s

/-- Well-formedness of a history state: the index points at a snapshot and
the list respects the cap of 50. -/
def HistoryWF {α : Type} (s : HistoryState α) : Prop :=
  s.index < s.history.length ∧ s.history.length ≤ 50

/-! ## Shapes (`components/BasicObjects/*`) and hit testing (`utils/hitTesting.ts`) -/

/-- The `RectangleShape` interface (`type: 'rectangle'` is the constructor tag
of `Shape` below). -/
structure RectangleShape where
  id : String
  x : ℚ
  y : ℚ
  width : ℚ
  height : ℚ
  strokeColor : String
  fillColor : Option String
deriving DecidableEq, Repr

/-- The `CircleShape` interface. -/
structure CircleShape where
  id : String
  x : ℚ
  y : ℚ
  radius : ℚ
  strokeColor : String
  fillColor : Option String
deriving DecidableEq, Repr

/-- The `LineShape` interface. -/
structure LineShape where
  id : String
  x1 : ℚ
  y1 : ℚ
  x2 : ℚ
  y2 : ℚ
  strokeColor : String
deriving DecidableEq, Repr

/-- The `ArrowShape` interface. -/
structure ArrowShape where
  id : String
  x1 : ℚ
  y1 : ℚ
  x2 : ℚ
  y2 : ℚ
  strokeColor : String
deriving DecidableEq, Repr

/-- The `PencilShape` interface. -/
structure PencilShape where
  id : String
  points : List Pt
  strokeColor : String
deriving DecidableEq, Repr

/-- The `TextShape` interface. -/
structure TextShape where
  id : String
  x : ℚ
  y : ℚ
  text : String
  fontSize : ℚ
  fontFamily : String
  strokeColor : String
  isEditing : Option Bool
deriving DecidableEq, Repr

/-- The `Shape` union; the constructor plays the role of the `type` tag. -/
inductive Shape where
  | rectangle (s : RectangleShape)
  | circle (s : CircleShape)
  | line (s : LineShape)
  | arrow (s : ArrowShape)
  | pencil (s : PencilShape)
  | text (s : TextShape)
deriving DecidableEq, Repr

/-- The `id` of a shape (every variant carries one). -/
def Shape.id : Shape → String
  | .rectangle s => s.id
  | .circle s => s.id
  | .line s => s.id
  | .arrow s => s.id
  | .pencil s => s.id
  | .text s => s.id

/-- The text-measurement capability of a `CanvasRenderingContext2D`:
`measure t` stands for `context.measureText(t).width` (after the font has
been set from the shape, which the model need not track). -/
structure Ctx where
  measure : String → ℚ

/-- Exact decision of the comparison `Math.sqrt s <= r` without leaving ℚ:
`√s ≤ r` holds iff `0 ≤ r` and `s ≤ r·r` (see `sqrtLe_iff`). -/
def sqrtLe (s r : ℚ) : Bool :=
  decide (0 ≤ r ∧ s ≤ r * r)

/-- `hitTestRectangle`: the point lies within the axis-aligned rectangle. -/
def hitTestRectangle (shape : RectangleShape) (point : Pt) : Bool :=
  decide (point.x ≥ shape.x ∧ point.x ≤ shape.x + shape.width ∧
    point.y ≥ shape.y ∧ point.y ≤ shape.y + shape.height)

/-- `hitTestCircle`: `Math.sqrt((px-x)² + (py-y)²) <= radius`. -/
def hitTestCircle (shape : CircleShape) (point : Pt) : Bool :=
  sqrtLe ((point.x - shape.x) ^ 2 + (point.y - shape.y) ^ 2) shape.radius

/-- `hitTestLine`: distance from the point to the segment, clamped to the
endpoints, compared with the 5-pixel `THRESHOLD`.  When `lenSq` is 0 the
division is skipped and `param` keeps its initial `-1`. -/
def hitTestLine (shape : LineShape) (point : Pt) : Bool :=
  let THRESHOLD : ℚ := 5
  let A := point.x - shape.x1
  let B := point.y - shape.y1
  let C := shape.x2 - shape.x1
  let D := shape.y2 - shape.y1
  let dot := A * C + B * D
  let lenSq := C * C + D * D
  let param := if lenSq ≠ 0 then dot / lenSq else -1
  let xx := if param < 0 then shape.x1 else if param > 1 then shape.x2
    else shape.x1 + param * C
  let yy := if param < 0 then shape.y1 else if param > 1 then shape.y2
    else shape.y1 + param * D
  let dx := point.x - xx
  let dy := point.y - yy
  sqrtLe (dx * dx + dy * dy) THRESHOLD

/-- `hitTestArrow`: builds the corresponding `LineShape` and defers to
`hitTestLine`. -/
def hitTestArrow (shape : ArrowShape) (point : Pt) : Bool :=
  hitTestLine
    { id := shape.id, x1 := shape.x1, y1 := shape.y1, x2 := shape.x2, y2 := shape.y2,
      strokeColor := shape.strokeColor }
    point

/-- `hitTestPencil`: hit iff some consecutive pair of stroke points, viewed
as a line segment, is hit. -/
def hitTestPencil (shape : PencilShape) (point : Pt) : Bool :=
  pencilSegments shape.points
where
  /-- the `for` loop over `points[i]`, `points[i+1]` -/
  pencilSegments : List Pt → Bool
    | p :: q :: rest =>
      hitTestLine
          { id := "", x1 := p.x, y1 := p.y, x2 := q.x, y2 := q.y, strokeColor := "" }
          point
        || pencilSegments (q :: rest)
    | _ => false

/-- `TextDrawer.getTextWidth`: the widest line of the text (fold of
`Math.max` over `measureText` of each line, starting from `0`). -/
def getTextWidth (ctx : Ctx) (shape : TextShape) : ℚ :=
  ((shape.text.splitOn "\n").map ctx.measure).foldl max 0

/-- `TextDrawer.getTextHeight`: `lines.length * fontSize * 1.2`. -/
def getTextHeight (shape : TextShape) : ℚ :=
  (shape.text.splitOn "\n").length * (shape.fontSize * (6 / 5))

/-- `hitTestText`: bounding-box test against measured width/height; a missing
context means no hit. -/
def hitTestText (shape : TextShape) (point : Pt) (context : Option Ctx) : Bool :=
  match context with
  | none => false
  | some ctx =>
    let textWidth := getTextWidth ctx shape
    let textHeight := getTextHeight shape
    decide (point.x ≥ shape.x ∧ point.x ≤ shape.x + textWidth ∧
      point.y ≥ shape.y ∧ point.y ≤ shape.y + textHeight)

/-- The `switch (shape.type)` dispatch inside `findShapeAtPoint`. -/
def hitTestShape (shape : Shape) (canvasPoint : Pt) (context : Option Ctx) : Bool :=
  match shape with
  | .rectangle s => hitTestRectangle s canvasPoint
  | .circle s => hitTestCircle s canvasPoint
  | .line s => hitTestLine s canvasPoint
  | .arrow s => hitTestArrow s canvasPoint
  | .pencil s => hitTestPencil s canvasPoint
  | .text s =>
    match context with
    | some ctx => hitTestText s canvasPoint (some ctx)
    | none => false

/-- `findShapeAtPoint`: convert the screen point to canvas space once, then
scan the scene list from its tail (`i = shapes.length - 1` downwards),
returning the first shape whose variant hit test succeeds. -/
def findShapeAtPoint (point : Pt) (shapes : List Shape)
    (screenToCanvasFn : Pt → Pt) (context : Option Ctx) : Option Shape :=
  let canvasPoint := screenToCanvasFn point
  shapes.reverse.find? (fun shape => hitTestShape shape canvasPoint context)

/-! ## Marquee selection (`useSelection.ts` + `utils/shapeSelection.ts`) -/

/-- The `SelectionRect` interface. -/
structure SelectionRect where
  x : ℚ
  y : ℚ
  width : ℚ
  height : ℚ
deriving DecidableEq, Repr

/-- The screen→canvas conversion of the selection rectangle computed at the
top of `isShapeInSelection`. -/
def canvasSelectionRect (selectionRect : SelectionRect) (offset : Pt) (scale : ℚ) :
    SelectionRect :=
  { x := (selectionRect.x - offset.x) / scale
    y := (selectionRect.y - offset.y) / scale
    width := selectionRect.width / scale
    height := selectionRect.height / scale }

/-- `isShapeInSelection` from `utils/shapeSelection.ts`: full containment of
the shape's bounds in the canvas-space selection rectangle, per variant;
`Math.min(...xs)`/`Math.max(...xs)` over the (nonempty) pencil coordinate
spreads are folds; an empty pencil or a text without context is never
selected. -/
def isShapeInSelection (shape : Shape) (selectionRect : SelectionRect) (offset : Pt)
    (scale : ℚ) (context : Option Ctx) : Bool :=
  let c := canvasSelectionRect selectionRect offset scale
  match shape with
  | .rectangle s =>
    decide (s.x ≥ c.x ∧ s.y ≥ c.y ∧
      s.x + s.width ≤ c.x + c.width ∧ s.y + s.height ≤ c.y + c.height)
  | .circle s =>
    decide (s.x - s.radius ≥ c.x ∧ s.y - s.radius ≥ c.y ∧
      s.x + s.radius ≤ c.x + c.width ∧ s.y + s.radius ≤ c.y + c.height)
  | .line s =>
    decide (min s.x1 s.x2 ≥ c.x ∧ min s.y1 s.y2 ≥ c.y ∧
      max s.x1 s.x2 ≤ c.x + c.width ∧ max s.y1 s.y2 ≤ c.y + c.height)
  | .arrow s =>
    decide (min s.x1 s.x2 ≥ c.x ∧ min s.y1 s.y2 ≥ c.y ∧
      max s.x1 s.x2 ≤ c.x + c.width ∧ max s.y1 s.y2 ≤ c.y + c.height)
  | .pencil s =>
    match s.points with
    | [] => false
    | p :: ps =>
      let minPencilX := (ps.map Pt.x).foldl min p.x
      let minPencilY := (ps.map Pt.y).foldl min p.y
      let maxPencilX := (ps.map Pt.x).foldl max p.x
      let maxPencilY := (ps.map Pt.y).foldl max p.y
      decide (minPencilX ≥ c.x ∧ minPencilY ≥ c.y ∧
        maxPencilX ≤ c.x + c.width ∧ maxPencilY ≤ c.y + c.height)
  | .text s =>
    match context with
    | none => false
    | some ctx =>
      let textWidth := ctx.measure s.text
      decide (s.x ≥ c.x ∧ s.y ≥ c.y ∧
        s.x + textWidth ≤ c.x + c.width ∧ s.y + s.fontSize ≤ c.y + c.height)

/-- The selection-related state of `useSelection`. -/
structure SelectionState where
  selectedShapes : List String
  isSelecting : Bool
  selectionStart : Pt
  selectionEnd : Pt
deriving DecidableEq, Repr

/-- `clearSelection()`. -/
def clearSelection (sel : SelectionState) : SelectionState :=
  { sel with selectedShapes := [] }

/-- `startSelection(startPoint)`. -/
def startSelection (sel : SelectionState) (startPoint : Pt) : SelectionState :=
  { sel with isSelecting := true, selectionStart := startPoint, selectionEnd := startPoint }

/-- `updateSelection(endPoint)`. -/
def updateSelection (sel : SelectionState) (endPoint : Pt) : SelectionState :=
  if sel.isSelecting then { sel with selectionEnd := endPoint } else sel

/-- `finishSelection(shapes, offset, scale, context)`: only treated as a
marquee when the drag rectangle exceeds 5px in either axis; then the
selection becomes exactly the ids of the fully contained shapes (the
`clearSelection()` fallback for an empty hit set produces the same empty
selection). -/
def finishSelection (sel : SelectionState) (shapes : List Shape) (offset : Pt)
    (scale : ℚ) (context : Option Ctx) : SelectionState :=
  if ¬ sel.isSelecting then sel
  else
    let rectX := min sel.selectionStart.x sel.selectionEnd.x
    let rectY := min sel.selectionStart.y sel.selectionEnd.y
    let rectWidth := |sel.selectionEnd.x - sel.selectionStart.x|
    let rectHeight := |sel.selectionEnd.y - sel.selectionStart.y|
    if rectWidth > 5 ∨ rectHeight > 5 then
      let selectionRect : SelectionRect :=
        { x := rectX, y := rectY, width := rectWidth, height := rectHeight }
      let shapesInSelection := shapes.filter
        (fun shape => isShapeInSelection shape selectionRect offset scale context)
      if shapesInSelection.length > 0 then
        { sel with isSelecting := false, selectedShapes := shapesInSelection.map Shape.id }
      else
        { sel with isSelecting := false, selectedShapes := [] }
    else
      { sel with isSelecting := false }

/-- The drag rectangle of a marquee from `startP` to `endP` (the
`rectX`/`rectY`/`rectWidth`/`rectHeight` computation of `finishSelection`). -/
def marqueeRect (startP endP : Pt) : SelectionRect :=
  { x := min startP.x endP.x, y := min startP.y endP.y,
    width := |endP.x - startP.x|, height := |endP.y - startP.y| }

/-- The `Canvas` select-tool gesture on empty space: mouse-down misses every
shape, so `handleMouseDown` runs `clearSelection(); startSelection(mousePos)`;
mouse-move runs `updateSelection`; mouse-up runs `finishSelection`. -/
def selectModeDragOnEmpty (sel : SelectionState) (startP endP : Pt)
    (shapes : List Shape) (offset : Pt) (scale : ℚ) (context : Option Ctx) :
    SelectionState :=
  finishSelection (updateSelection (startSelection (clearSelection sel) startP) endP)
    shapes offset scale context

/-- Full containment of a shape's bounding region in a canvas-space
rectangle, stated as the specification phrases it (for the pencil: every
stroke point lies in the rectangle; for text: measured width and font
size). -/
def ShapeFullyContained (shape : Shape) (c : SelectionRect) (context : Option Ctx) : Prop :=
  match shape with
  | .rectangle s =>
    c.x ≤ s.x ∧ c.y ≤ s.y ∧ s.x + s.width ≤ c.x + c.width ∧ s.y + s.height ≤ c.y + c.height
  | .circle s =>
    c.x ≤ s.x - s.radius ∧ c.y ≤ s.y - s.radius ∧
      s.x + s.radius ≤ c.x + c.width ∧ s.y + s.radius ≤ c.y + c.height
  | .line s =>
    c.x ≤ min s.x1 s.x2 ∧ c.y ≤ min s.y1 s.y2 ∧
      max s.x1 s.x2 ≤ c.x + c.width ∧ max s.y1 s.y2 ≤ c.y + c.height
  | .arrow s =>
    c.x ≤ min s.x1 s.x2 ∧ c.y ≤ min s.y1 s.y2 ∧
      max s.x1 s.x2 ≤ c.x + c.width ∧ max s.y1 s.y2 ≤ c.y + c.height
  | .pencil s =>
    s.points ≠ [] ∧ ∀ q ∈ s.points,
      c.x ≤ q.x ∧ c.y ≤ q.y ∧ q.x ≤ c.x + c.width ∧ q.y ≤ c.y + c.height
  | .text s =>
    match context with
    | none => False
    | some ctx =>
      c.x ≤ s.x ∧ c.y ≤ s.y ∧
        s.x + ctx.measure s.text ≤ c.x + c.width ∧ s.y + s.fontSize ≤ c.y + c.height

/-! ## Shape factories (`components/BasicObjects/*.tsx`) and drawing
(`useDrawing.ts`)

The factories generate fresh ids (`Date.now()` plus a random suffix); the
nondeterministic id is a parameter of the model.  `Math.sqrt` (used only for
the value of a circle's radius) is likewise passed in. -/

/-- `RectangleDrawer.createRectangle`: normalises the two drag corners to
top-left plus nonnegative extents. -/
def createRectangle (id : String) (startX startY endX endY : ℚ)
    (strokeColor : String) (fillColor : Option String) : RectangleShape :=
  { id := id, x := min startX endX, y := min startY endY,
    width := |endX - startX|, height := |endY - startY|,
    strokeColor := strokeColor, fillColor := fillColor }

/-- `CircleDrawer.createCircle`: centre is the drag midpoint, radius is half
the drag diagonal (`Math.sqrt` passed in as `sqrtFn`). -/
def createCircle (sqrtFn : ℚ → ℚ) (id : String) (startX startY endX endY : ℚ)
    (strokeColor : String) (fillColor : Option String) : CircleShape :=
  { id := id, x := (startX + endX) / 2, y := (startY + endY) / 2,
    radius := sqrtFn ((endX - startX) ^ 2 + (endY - startY) ^ 2) / 2,
    strokeColor := strokeColor, fillColor := fillColor }

/-- `LineDrawer.createLine`. -/
def createLine (id : String) (startX startY endX endY : ℚ) (strokeColor : String) :
    LineShape :=
  { id := id, x1 := startX, y1 := startY, x2 := endX, y2 := endY,
    strokeColor := strokeColor }

/-- `ArrowDrawer.createArrow`. -/
def createArrow (id : String) (startX startY endX endY : ℚ) (strokeColor : String) :
    ArrowShape :=
  { id := id, x1 := startX, y1 := startY, x2 := endX, y2 := endY,
    strokeColor := strokeColor }

/-- `PencilDrawer.createPencil`. -/
def createPencil (id : String) (points : List Pt) (strokeColor : String) : PencilShape :=
  { id := id, points := points, strokeColor := strokeColor }

/-- The drawing-session state of `useDrawing`. -/
structure DrawingState where
  isDrawing : Bool
  drawStart : Pt
  drawEnd : Pt
  currentPencilPoints : List Pt
deriving Repr

/-- `finishDrawing(tool, screenToCanvas)`: pencil needs more than one
accumulated point; the non-pencil, non-text tools convert both drag ends to
canvas space and gate on `hasSize` (always true for line/arrow, both-axes
`> 5` for rectangle/circle); every other path returns `null`. -/
def finishDrawing (sqrtFn : ℚ → ℚ) (freshId : String) (tool : String)
    (screenToCanvasFn : Pt → Pt) (st : DrawingState) : Option Shape :=
  if ¬ st.isDrawing then none
  else if tool = "pencil" ∧ st.currentPencilPoints.length > 1 then
    some (Shape.pencil (createPencil freshId st.currentPencilPoints "#4e4e4e"))
  else if tool ≠ "pencil" ∧ tool ≠ "text" then
    let canvasStart := screenToCanvasFn st.drawStart
    let canvasEnd := screenToCanvasFn st.drawEnd
    let hasSize := tool = "line" ∨ tool = "arrow" ∨
      (|canvasEnd.x - canvasStart.x| > 5 ∧ |canvasEnd.y - canvasStart.y| > 5)
    if hasSize then
      if tool = "rectangle" then
        some (Shape.rectangle
          (createRectangle freshId canvasStart.x canvasStart.y canvasEnd.x canvasEnd.y
            "#4e4e4e" none))
      else if tool = "circle" then
        some (Shape.circle
          (createCircle sqrtFn freshId canvasStart.x canvasStart.y canvasEnd.x canvasEnd.y
            "#4e4e4e" none))
      else if tool = "line" then
        some (Shape.line
          (createLine freshId canvasStart.x canvasStart.y canvasEnd.x canvasEnd.y "#4e4e4e"))
      else if tool = "arrow" then
        some (Shape.arrow
          (createArrow freshId canvasStart.x canvasStart.y canvasEnd.x canvasEnd.y "#4e4e4e"))
      else none
    else none
  else none

/-! ## Text-caret arrow-key navigation (monolithic `Canvas` `handleKeyDown`)

JS strings are modelled as lists of characters (cursor positions and lengths
count code units, which coincides for the texts considered); `text.split('\n')`
is `splitLines`.  Cursor positions are integers, as in the source, so that an
out-of-range result is representable. -/

/-- `text.split('\n')` on a character-list string: splits on every newline
character (adjacent newlines give empty segments, like the JS split). -/
def splitLines : List Char → List (List Char)
  | [] => [[]]
  | c :: rest =>
    let r := splitLines rest
    if c = '\n' then [] :: r
    else
      match r with
      | l :: ls => (c :: l) :: ls
      | [] => [[c]]

/-- The cursor-locating loop of the ArrowUp/ArrowDown branch: starting at
line `i` with `charCount` characters before it, return
`(currentLine, positionInLine, charCount)` for the first line satisfying
`charCount + lines[i].length >= cursorPos`; if the loop runs out (never for
an in-range cursor), the JS locals keep their initial `0`/`0` with the
accumulated `charCount`. -/
def locateCursorLine (lines : List (List Char)) (cursorPos : ℤ) (i : ℕ)
    (charCount : ℤ) : ℕ × ℤ × ℤ :=
  match lines with
  | [] => (0, 0, charCount)
  | l :: rest =>
    if charCount + l.length ≥ cursorPos then (i, cursorPos - charCount, charCount)
    else locateCursorLine rest cursorPos (i + 1) (charCount + l.length + 1)

/-- The new cursor position computed by the ArrowUp/ArrowDown branch of the
monolithic `Canvas` `handleKeyDown` (`isUp` selects ArrowUp):
`prevLineStart = charCount - lines[currentLine].length - 1 -
lines[currentLine-1].length - 1` resp.
`nextLineStart = charCount + lines[currentLine].length + 1`, plus the column
clamped to the target line's length; out-of-bounds edges leave the cursor
unchanged. -/
def arrowKeyNewCursorPos (text : List Char) (cursorPos : ℤ) (isUp : Bool) : ℤ :=
  let lines := splitLines text
  let loc := locateCursorLine lines cursorPos 0 0
  let currentLine := loc.1
  let positionInLine := loc.2.1
  let charCount := loc.2.2
  if isUp = true ∧ currentLine > 0 then
    let prevLineStart := charCount - ((lines.getD currentLine []).length : ℤ) - 1 -
      ((lines.getD (currentLine - 1) []).length : ℤ) - 1
    prevLineStart + min positionInLine ((lines.getD (currentLine - 1) []).length : ℤ)
  else if isUp = false ∧ currentLine < lines.length - 1 then
    let nextLineStart := charCount + ((lines.getD currentLine []).length : ℤ) + 1
    nextLineStart + min positionInLine ((lines.getD (currentLine + 1) []).length : ℤ)
  else cursorPos

/-! ## Lemmas and the claims' theorems -/

/-- The clamped scale produced by `zoomAt` is at least `0.1`, hence nonzero. -/
lemma zoomAt_fst_pos (scale : ℚ) (offset : Pt) (point : Pt) (scaleFactor : ℚ) :
    0 < (zoomAt scale offset point scaleFactor).1 := by
  have h : (1/10 : ℚ) ≤ max (1/10) (min 30 (scale * scaleFactor)) := le_max_left _ _
  have h0 : (0 : ℚ) < 1/10 := by norm_num
  simp only [zoomAt]
  exact lt_of_lt_of_le h0 h

/-- C1: for every transform state with positive scale and every anchor screen
point and zoom factor, `zoomAt` preserves the canvas coordinate under the
anchor: `screenToCanvas(anchor)` computed with the old `(scale, offset)`
equals `screenToCanvas(anchor)` computed with the new pair, in exact rational
arithmetic, including when the new scale is clamped to `[0.1, 30]`. -/
theorem zoomAt_preserves_anchor_canvas_point
    (scale : ℚ) (offset : Pt) (anchor : Pt) (factor : ℚ) (h : 0 < scale) :
    screenToCanvas (zoomAt scale offset anchor factor).1
        (zoomAt scale offset anchor factor).2 anchor =
      screenToCanvas scale offset anchor := by
  have hns : 0 < (zoomAt scale offset anchor factor).1 :=
    zoomAt_fst_pos scale offset anchor factor
  have hns' : max (1/10) (min 30 (scale * factor)) ≠ 0 := by
    have := hns
    simp only [zoomAt] at this
    exact ne_of_gt this
  have hs : scale ≠ 0 := ne_of_gt h
  simp only [zoomAt, screenToCanvas, Pt.mk.injEq]
  constructor <;> · field_simp; ring

/-- Witness for C1 at a concrete input: scale 2, offset (3,4), anchor (7,5),
factor 3 (clamped path exercised by the `min`/`max` in the definition). -/
theorem zoomAt_preserves_anchor_canvas_point_witness :
    0 < (2 : ℚ) ∧
      screenToCanvas (zoomAt 2 ⟨3, 4⟩ ⟨7, 5⟩ 3).1 (zoomAt 2 ⟨3, 4⟩ ⟨7, 5⟩ 3).2 ⟨7, 5⟩ =
        screenToCanvas 2 ⟨3, 4⟩ ⟨7, 5⟩ :=
  ⟨by norm_num, zoomAt_preserves_anchor_canvas_point 2 ⟨3, 4⟩ ⟨7, 5⟩ 3 (by norm_num)⟩

/-- C9: with nonzero scale, `canvasToScreen` and `screenToCanvas` are mutually
inverse: `canvasToScreen(screenToCanvas(p)) = p` exactly. -/
theorem canvasToScreen_screenToCanvas
    (scale : ℚ) (offset : Pt) (p : Pt) (h : scale ≠ 0) :
    canvasToScreen scale offset (screenToCanvas scale offset p) = p := by
  cases p with
  | mk px py =>
    simp only [canvasToScreen, screenToCanvas, Pt.mk.injEq]
    constructor <;> · field_simp

/-- Witness for C9 at scale 5, offset (1,2), p (9,-4). -/
theorem canvasToScreen_screenToCanvas_witness :
    (5 : ℚ) ≠ 0 ∧ canvasToScreen 5 ⟨1, 2⟩ (screenToCanvas 5 ⟨1, 2⟩ ⟨9, -4⟩) = ⟨9, -4⟩ :=
  ⟨by norm_num, canvasToScreen_screenToCanvas 5 ⟨1, 2⟩ ⟨9, -4⟩ (by norm_num)⟩

lemma commitInv_fresh {α : Type} (a : α) : CommitInv (freshHistory a) := by
  constructor <;> simp [freshHistory]

lemma addToHistory_of_commitInv {α : Type} {s : HistoryState α} (h : CommitInv s) (c : α) :
    (addToHistory s c).history = (s.history ++ [c]).drop (if s.history.length = 50 then 1 else 0) ∧
      (addToHistory s c).index = min (s.index + 1) 49 := by
  obtain ⟨hlen, hcap⟩ := h
  have htake : s.history.take (s.index + 1) = s.history := by
    rw [hlen]; exact List.take_length s.history
  simp only [addToHistory, htake, List.length_append, List.length_singleton]
  constructor
  · by_cases h50 : s.history.length = 50
    · simp [h50]
    · have : ¬ s.history.length + 1 > 50 := by omega
      simp [this, h50]
  · split_ifs <;> omega

lemma commitInv_addToHistory {α : Type} {s : HistoryState α} (h : CommitInv s) (c : α) :
    CommitInv (addToHistory s c) := by
  obtain ⟨h1, h2⟩ := addToHistory_of_commitInv h c
  obtain ⟨hlen, hcap⟩ := h
  constructor
  · rw [h1, h2, List.length_drop, List.length_append, List.length_singleton]
    by_cases h50 : s.history.length = 50 <;> simp [h50] <;> omega
  · rw [h1, List.length_drop, List.length_append, List.length_singleton]
    by_cases h50 : s.history.length = 50 <;> simp [h50] <;> omega

lemma commitInv_commitAll {α : Type} {s : HistoryState α} (h : CommitInv s) (cs : List α) :
    CommitInv (commitAll s cs) := by
  induction cs generalizing s with
  | nil => exact h
  | cons c cs ih => exact ih (commitInv_addToHistory h c)

lemma undoTimes_history {α : Type} (s : HistoryState α) (n : ℕ) :
    (undoTimes s n).history = s.history ∧ (undoTimes s n).index = s.index - n := by
  induction n generalizing s with
  | zero => simp [undoTimes]
  | succ n ih =>
    simp only [undoTimes]
    by_cases h : s.index > 0
    · simp only [undo, if_pos h]
      rcases ih { s with index := s.index - 1 } with ⟨ih1, ih2⟩
      refine ⟨ih1, ?_⟩
      rw [ih2]; simp; omega
    · simp only [undo, if_neg h]
      rcases ih s with ⟨ih1, ih2⟩
      exact ⟨ih1, by rw [ih2]; omega⟩

lemma redoTimes_history {α : Type} (s : HistoryState α) (n : ℕ)
    (h : s.index ≤ s.history.length - 1) :
    (redoTimes s n).history = s.history ∧
      (redoTimes s n).index = min (s.index + n) (s.history.length - 1) := by
  induction n generalizing s with
  | zero => simp only [redoTimes, true_and]; omega
  | succ n ih =>
    simp only [redoTimes]
    by_cases hlt : s.index < s.history.length - 1
    · simp only [redo, if_pos hlt]
      rcases ih { s with index := s.index + 1 } (by simp; omega) with ⟨ih1, ih2⟩
      refine ⟨ih1, ?_⟩
      rw [ih2]; simp; omega
    · simp only [redo, if_neg hlt]
      rcases ih s h with ⟨ih1, ih2⟩
      refine ⟨ih1, ?_⟩
      rw [ih2]; omega

lemma commitAll_append {α : Type} (s : HistoryState α) (a b : List α) :
    commitAll s (a ++ b) = commitAll (commitAll s a) b :=
  List.foldl_append _ _ _ _

lemma currentSnapshot_addToHistory {α : Type} {s : HistoryState α}
    (hidx : s.index < s.history.length) (hcap : s.history.length ≤ 50) (c : α) :
    currentSnapshot (addToHistory s c) = some c := by
  have htake : (s.history.take (s.index + 1)).length = s.index + 1 := by
    rw [List.length_take]; omega
  simp only [currentSnapshot, addToHistory, List.length_append, List.length_singleton, htake]
  by_cases h49 : s.index + 1 > 49
  · have h50 : s.index + 1 + 1 > 50 := by omega
    have hidx49 : s.index + 1 = 50 := by omega
    have hlen50 : s.history.length = 50 := by omega
    simp only [if_pos h50, if_pos h49]
    rw [List.get?_drop, List.get?_append_right (by omega)]
    simp [htake, hidx49, hlen50]
  · have h50 : ¬ s.index + 1 + 1 > 50 := by omega
    simp only [if_neg h50, if_neg h49]
    rw [List.get?_append_right (by omega)]
    simp [htake]

/-- C2: from a fresh history, after any sequence of N commits, `undo` N times
followed by `redo` N times restores the post-commit state (hence the final
committed scene, which is the snapshot in effect after any nonempty commit
sequence); `undo` at index 0 and `redo` at the last snapshot are no-ops that
return `null` and leave history and index unchanged. -/
theorem undo_redo_round_trip (α : Type) (init : α) (cs : List α) :
    (redoTimes (undoTimes (commitAll (freshHistory init) cs) cs.length) cs.length =
        commitAll (freshHistory init) cs) ∧
      (∀ (cs' : List α) (c : α),
          currentSnapshot (commitAll (freshHistory init) (cs' ++ [c])) = some c) ∧
      (∀ s : HistoryState α, s.index = 0 → undo s = (none, s)) ∧
      (∀ s : HistoryState α, s.index + 1 = s.history.length → redo s = (none, s)) := by
  refine ⟨?_, ?_, ?_, ?_⟩
  · obtain ⟨h1, h2⟩ := commitInv_commitAll (commitInv_fresh init) cs
    obtain ⟨hu1, hu2⟩ := undoTimes_history (commitAll (freshHistory init) cs) cs.length
    have hle : (undoTimes (commitAll (freshHistory init) cs) cs.length).index ≤
        (undoTimes (commitAll (freshHistory init) cs) cs.length).history.length - 1 := by
      rw [hu1, hu2]; omega
    obtain ⟨hr1, hr2⟩ :=
      redoTimes_history (undoTimes (commitAll (freshHistory init) cs) cs.length) cs.length hle
    apply HistoryState.ext
    · rw [hr1, hu1]
    · rw [hr2, hu2, hu1]; omega
  · intro cs' c
    rw [commitAll_append]
    obtain ⟨h1, h2⟩ := commitInv_commitAll (commitInv_fresh init) cs'
    exact currentSnapshot_addToHistory (by omega) h2 c
  · intro s h0
    simp [undo, h0]
  · intro s h
    have : ¬ s.index < s.history.length - 1 := by omega
    simp [redo, this]

/-- Witness for C2: three commits 1,2,3 over ℕ snapshots from a fresh history
with initial snapshot 0. -/
theorem undo_redo_round_trip_witness :
    (redoTimes (undoTimes (commitAll (freshHistory 0) [1, 2, 3]) 3) 3 =
        commitAll (freshHistory (0 : ℕ)) [1, 2, 3]) ∧
      currentSnapshot (commitAll (freshHistory (0 : ℕ)) ([1, 2] ++ [3])) = some 3 ∧
      undo (freshHistory (0 : ℕ)) = (none, freshHistory 0) ∧
      redo (freshHistory (0 : ℕ)) = (none, freshHistory 0) :=
  ⟨(undo_redo_round_trip ℕ 0 [1, 2, 3]).1,
   (undo_redo_round_trip ℕ 0 [1, 2, 3]).2.1 [1, 2] 3,
   (undo_redo_round_trip ℕ 0 [1, 2, 3]).2.2.1 _ rfl,
   (undo_redo_round_trip ℕ 0 [1, 2, 3]).2.2.2 _ (by decide)⟩

lemma historyWF_fresh {α : Type} (a : α) : HistoryWF (freshHistory a) := by
  constructor <;> simp [freshHistory]

lemma historyWF_addToHistory {α : Type} {s : HistoryState α} (h : HistoryWF s) (c : α) :
    HistoryWF (addToHistory s c) := by
  obtain ⟨hidx, hcap⟩ := h
  have htake : (s.history.take (s.index + 1)).length = min (s.index + 1) s.history.length :=
    List.length_take _ _
  simp only [HistoryWF, addToHistory, List.length_append, List.length_singleton]
  constructor
  · split_ifs with h50 h49 h49 <;> simp_all <;> omega
  · split_ifs with h50 <;> simp_all <;> omega

lemma historyWF_applyHistOp {α : Type} {s : HistoryState α} (h : HistoryWF s) (op : HistOp α) :
    HistoryWF (applyHistOp s op) := by
  obtain ⟨hidx, hcap⟩ := h
  cases op with
  | commit c => exact historyWF_addToHistory ⟨hidx, hcap⟩ c
  | undoOp =>
    by_cases h : s.index > 0
    · simp only [applyHistOp, undo, if_pos h]
      refine ⟨?_, ?_⟩ <;> simp <;> omega
    · simp only [applyHistOp, undo, if_neg h]
      exact ⟨hidx, hcap⟩
  | redoOp =>
    by_cases h : s.index < s.history.length - 1
    · simp only [applyHistOp, redo, if_pos h]
      refine ⟨?_, ?_⟩ <;> simp <;> omega
    · simp only [applyHistOp, redo, if_neg h]
      exact ⟨hidx, hcap⟩

lemma historyWF_applyHistOps {α : Type} {s : HistoryState α} (h : HistoryWF s)
    (ops : List (HistOp α)) : HistoryWF (applyHistOps s ops) := by
  induction ops generalizing s with
  | nil => exact h
  | cons op ops ih => exact ih (historyWF_applyHistOp h op)

lemma commitAll_history_suffix {α : Type} {s : HistoryState α} (h : CommitInv s)
    (cs : List α) :
    (commitAll s cs).history <:+ (s.history ++ cs) ∧
      (commitAll s cs).history.length = min (s.history.length + cs.length) 50 := by
  induction cs generalizing s with
  | nil =>
    refine ⟨by simp [commitAll], ?_⟩
    have h2 := h.2
    simp only [commitAll, List.foldl_nil, List.length_nil, Nat.add_zero]
    omega
  | cons c cs ih =>
    have hadd := addToHistory_of_commitInv h c
    have hinv' := commitInv_addToHistory h c
    obtain ⟨ih1, ih2⟩ := ih hinv'
    have hstep : commitAll s (c :: cs) = commitAll (addToHistory s c) cs := rfl
    have hsub : (addToHistory s c).history <:+ s.history ++ [c] := by
      rw [hadd.1]; exact List.drop_suffix _ _
    have hlen : (addToHistory s c).history.length = min (s.history.length + 1) 50 := by
      rw [hadd.1, List.length_drop, List.length_append, List.length_singleton]
      have := h.2
      split_ifs with h50 <;> omega
    constructor
    · rw [hstep]
      refine ih1.trans ?_
      obtain ⟨t, ht⟩ := hsub
      refine ⟨t, ?_⟩
      rw [← List.append_assoc, ht]
      simp
    · rw [hstep, ih2, hlen]
      simp only [List.length_cons]
      omega

lemma oldest_commit_evicted {α : Type} (init c : α) (cs : List α) (hlen : cs.length = 50)
    (hne : ∀ x ∈ cs, x ≠ c) :
    c ∉ (commitAll (freshHistory init) (c :: cs)).history := by
  obtain ⟨hsuf, hL⟩ := commitAll_history_suffix (commitInv_fresh init) (c :: cs)
  obtain ⟨t, ht⟩ := hsuf
  have hlt : t.length = 2 := by
    have hc := congrArg List.length ht
    simp only [List.length_append, freshHistory, List.length_cons, List.length_nil] at hc
    simp only [freshHistory, List.length_cons, List.length_nil, hlen] at hL
    omega
  obtain ⟨a, b, rfl⟩ := List.length_eq_two.mp hlt
  simp only [freshHistory, List.cons_append, List.nil_append, List.singleton_append,
    List.cons.injEq] at ht
  obtain ⟨-, -, hrest⟩ := ht
  simp only [freshHistory]
  rw [hrest]
  intro hmem
  exact hne c hmem rfl

/-- C3: (i) after any sequence of `addToHistory`/`undo`/`redo` operations from
a fresh history, the snapshot list never exceeds 50 entries and the index
points at a valid snapshot; (ii) a commit into any well-formed state — in
particular one at the cap, where the oldest snapshot is evicted and the index
capped to compensate — leaves the newly committed snapshot as the effective
current one; (iii) after cap+1 = 51 commits from a fresh history, the oldest
committed snapshot (distinct from the later ones) is no longer reachable by
any number of `undo` steps. -/
theorem history_cap_and_eviction (α : Type) :
    (∀ (init : α) (ops : List (HistOp α)),
        (applyHistOps (freshHistory init) ops).history.length ≤ 50 ∧
          (applyHistOps (freshHistory init) ops).index <
            (applyHistOps (freshHistory init) ops).history.length) ∧
      (∀ (s : HistoryState α) (c : α), s.index < s.history.length →
          s.history.length ≤ 50 → currentSnapshot (addToHistory s c) = some c) ∧
      (∀ (init c : α) (cs : List α), cs.length = 50 → (∀ x ∈ cs, x ≠ c) →
          ∀ k : ℕ,
            currentSnapshot (undoTimes (commitAll (freshHistory init) (c :: cs)) k) ≠
              some c) := by
  refine ⟨?_, ?_, ?_⟩
  · intro init ops
    obtain ⟨h1, h2⟩ := historyWF_applyHistOps (historyWF_fresh init) ops
    exact ⟨h2, h1⟩
  · intro s c hidx hcap
    exact currentSnapshot_addToHistory hidx hcap c
  · intro init c cs hlen hne k hcur
    have hnotin := oldest_commit_evicted init c cs hlen hne
    obtain ⟨hu1, -⟩ := undoTimes_history (commitAll (freshHistory init) (c :: cs)) k
    rw [currentSnapshot, hu1] at hcur
    exact hnotin (List.get?_mem hcur)

/-- Witness for C3 over ℕ snapshots: a mixed operation sequence for the
invariant; a fresh state for the commit/current-snapshot law; 51 distinct
commits `1, 2, …, 51` (oldest `1`) with 5 undos for the eviction law. -/
theorem history_cap_and_eviction_witness :
    ((applyHistOps (freshHistory (0 : ℕ))
          [HistOp.commit 1, HistOp.undoOp, HistOp.redoOp, HistOp.commit 2]).history.length ≤ 50 ∧
        (applyHistOps (freshHistory (0 : ℕ))
            [HistOp.commit 1, HistOp.undoOp, HistOp.redoOp, HistOp.commit 2]).index <
          (applyHistOps (freshHistory (0 : ℕ))
              [HistOp.commit 1, HistOp.undoOp, HistOp.redoOp, HistOp.commit 2]).history.length) ∧
      currentSnapshot (addToHistory (freshHistory (0 : ℕ)) 7) = some 7 ∧
      currentSnapshot
          (undoTimes
            (commitAll (freshHistory (0 : ℕ)) (1 :: (List.range 50).map (fun n => n + 2))) 5) ≠
        some 1 :=
  ⟨(history_cap_and_eviction ℕ).1 0 [HistOp.commit 1, HistOp.undoOp, HistOp.redoOp, HistOp.commit 2],
   (history_cap_and_eviction ℕ).2.1 (freshHistory 0) 7 (by decide) (by decide),
   (history_cap_and_eviction ℕ).2.2 0 1 ((List.range 50).map (fun n => n + 2))
     (by simp)
     (by
       intro x hx
       simp only [List.mem_map, List.mem_range] at hx
       obtain ⟨a, -, rfl⟩ := hx
       omega)
     5⟩

/-- `sqrtLe` agrees with the real square root, so every hit-test comparison
below is the exact version of the source's `Math.sqrt … <= …`. -/
lemma sqrtLe_iff (s r : ℚ) : sqrtLe s r = true ↔ Real.sqrt (s : ℝ) ≤ (r : ℝ) := by
  rw [Real.sqrt_le_iff]
  simp only [sqrtLe, decide_eq_true_eq]
  constructor
  · rintro ⟨h1, h2⟩
    exact ⟨by exact_mod_cast h1, by rw [sq]; exact_mod_cast h2⟩
  · rintro ⟨h1, h2⟩
    rw [sq] at h2
    exact ⟨by exact_mod_cast h1, by exact_mod_cast h2⟩

lemma find?_append_of_none {α : Type} (p : α → Bool) (l₁ l₂ : List α)
    (h : ∀ x ∈ l₁, p x = false) : (l₁ ++ l₂).find? p = l₂.find? p := by
  induction l₁ with
  | nil => simp
  | cons a l ih =>
    have ha : p a = false := h a (List.mem_cons_self a l)
    rw [List.cons_append, List.find?_cons_of_neg _ (by simp [ha]),
      ih (fun x hx => h x (List.mem_cons_of_mem a hx))]

/-- C4: `findShapeAtPoint` is the reverse-order first-hit search over the
scene at the (single) canvas-space conversion of the screen point.  In
particular (ii) whenever the scene splits as `xs ++ b :: ys` with `b` hit and
every shape after `b` missed, the result is `b` — so for two overlapping hit
shapes the one later in the scene list wins — and (iii) if no shape is hit
the result is `none`. -/
theorem findShapeAtPoint_topmost (point : Pt) (shapes : List Shape)
    (screenToCanvasFn : Pt → Pt) (context : Option Ctx) :
    (findShapeAtPoint point shapes screenToCanvasFn context =
        shapes.reverse.find?
          (fun shape => hitTestShape shape (screenToCanvasFn point) context)) ∧
      (∀ (xs : List Shape) (b : Shape) (ys : List Shape), shapes = xs ++ b :: ys →
          hitTestShape b (screenToCanvasFn point) context = true →
          (∀ y ∈ ys, hitTestShape y (screenToCanvasFn point) context = false) →
          findShapeAtPoint point shapes screenToCanvasFn context = some b) ∧
      ((∀ sh ∈ shapes, hitTestShape sh (screenToCanvasFn point) context = false) →
          findShapeAtPoint point shapes screenToCanvasFn context = none) := by
  refine ⟨rfl, ?_, ?_⟩
  · rintro xs b ys rfl hb hys
    simp only [findShapeAtPoint, List.reverse_append, List.reverse_cons, List.append_assoc]
    rw [find?_append_of_none _ _ _ (fun y hy => hys y (List.mem_reverse.mp hy))]
    simp [List.find?_cons_of_pos, hb]
  · intro hnone
    simp only [findShapeAtPoint]
    rw [List.find?_eq_none]
    intro x hx
    simp [hnone x (List.mem_reverse.mp hx)]

/-- Witness for C4, clause (ii): two overlapping unit rectangles; the later
one (`"top"`) is returned for a point inside both, with the identity
screen-to-canvas conversion and no text context. -/
theorem findShapeAtPoint_topmost_witness :
    hitTestShape
        (Shape.rectangle
          { id := "top", x := 0, y := 0, width := 10, height := 10,
            strokeColor := "", fillColor := none })
        ((fun p => p) ⟨5, 5⟩) none = true ∧
      findShapeAtPoint ⟨5, 5⟩
          [Shape.rectangle
            { id := "bottom", x := 0, y := 0, width := 10, height := 10,
              strokeColor := "", fillColor := none },
           Shape.rectangle
            { id := "top", x := 0, y := 0, width := 10, height := 10,
              strokeColor := "", fillColor := none }] (fun p => p) none =
        some (Shape.rectangle
          { id := "top", x := 0, y := 0, width := 10, height := 10,
            strokeColor := "", fillColor := none }) :=
  ⟨by norm_num [hitTestShape, hitTestRectangle],
   (findShapeAtPoint_topmost ⟨5, 5⟩ _ (fun p => p) none).2.1
     [Shape.rectangle
       { id := "bottom", x := 0, y := 0, width := 10, height := 10,
         strokeColor := "", fillColor := none }]
     (Shape.rectangle
       { id := "top", x := 0, y := 0, width := 10, height := 10,
         strokeColor := "", fillColor := none })
     [] rfl (by norm_num [hitTestShape, hitTestRectangle]) (by intro y hy; cases hy)⟩

/-- C10: on a degenerate segment (coinciding endpoints) `hitTestLine` skips
the division (`lenSq = 0`, `param` stays `-1`, the foot clamps to the first
endpoint) and returns `true` exactly when the Euclidean distance from the
query point to that endpoint is at most the 5-pixel threshold. -/
theorem hitTestLine_degenerate_total (shape : LineShape) (point : Pt)
    (hx : shape.x1 = shape.x2) (hy : shape.y1 = shape.y2) :
    hitTestLine shape point = true ↔
      Real.sqrt (((point.x : ℝ) - (shape.x1 : ℝ)) ^ 2 +
          ((point.y : ℝ) - (shape.y1 : ℝ)) ^ 2) ≤ 5 := by
  obtain ⟨i, x1, y1, x2, y2, c⟩ := shape
  simp only at hx hy
  subst hx; subst hy
  have harg : (((point.x - x1) * (point.x - x1) + (point.y - y1) * (point.y - y1) : ℚ) : ℝ) =
      ((point.x : ℝ) - (x1 : ℝ)) ^ 2 + ((point.y : ℝ) - (y1 : ℝ)) ^ 2 := by
    push_cast
    ring
  rw [show hitTestLine ⟨i, x1, y1, x1, y1, c⟩ point =
      sqrtLe ((point.x - x1) * (point.x - x1) + (point.y - y1) * (point.y - y1)) 5 by
    simp [hitTestLine]]
  rw [sqrtLe_iff, harg]
  norm_num

/-- Witness for C10: the zero-length line at the origin, queried at (3,4),
at Euclidean distance exactly 5. -/
theorem hitTestLine_degenerate_total_witness :
    hitTestLine { id := "l", x1 := 0, y1 := 0, x2 := 0, y2 := 0, strokeColor := "" } ⟨3, 4⟩ =
        true ↔
      Real.sqrt ((((3 : ℚ) : ℝ) - ((0 : ℚ) : ℝ)) ^ 2 +
          (((4 : ℚ) : ℝ) - ((0 : ℚ) : ℝ)) ^ 2) ≤ 5 :=
  hitTestLine_degenerate_total ⟨"l", 0, 0, 0, 0, ""⟩ ⟨3, 4⟩ rfl rfl

lemma le_foldl_min_iff (a init : ℚ) (l : List ℚ) :
    a ≤ l.foldl min init ↔ a ≤ init ∧ ∀ x ∈ l, a ≤ x := by
  induction l generalizing init with
  | nil => simp
  | cons b l ih =>
    rw [List.foldl_cons, ih (min init b), le_min_iff]
    constructor
    · rintro ⟨⟨h1, h2⟩, h3⟩
      exact ⟨h1, fun x hx => (List.mem_cons.mp hx).elim (fun e => e ▸ h2) (h3 x)⟩
    · rintro ⟨h1, h2⟩
      exact ⟨⟨h1, h2 b (List.mem_cons_self b l)⟩,
        fun x hx => h2 x (List.mem_cons_of_mem b hx)⟩

lemma foldl_max_le_iff (a init : ℚ) (l : List ℚ) :
    l.foldl max init ≤ a ↔ init ≤ a ∧ ∀ x ∈ l, x ≤ a := by
  induction l generalizing init with
  | nil => simp
  | cons b l ih =>
    rw [List.foldl_cons, ih (max init b), max_le_iff]
    constructor
    · rintro ⟨⟨h1, h2⟩, h3⟩
      exact ⟨h1, fun x hx => (List.mem_cons.mp hx).elim (fun e => e ▸ h2) (h3 x)⟩
    · rintro ⟨h1, h2⟩
      exact ⟨⟨h1, h2 b (List.mem_cons_self b l)⟩,
        fun x hx => h2 x (List.mem_cons_of_mem b hx)⟩

lemma isShapeInSelection_iff_fullyContained (shape : Shape) (r : SelectionRect)
    (offset : Pt) (scale : ℚ) (context : Option Ctx) :
    isShapeInSelection shape r offset scale context = true ↔
      ShapeFullyContained shape (canvasSelectionRect r offset scale) context := by
  cases shape with
  | rectangle s =>
    simp only [isShapeInSelection, ShapeFullyContained, decide_eq_true_eq, ge_iff_le]
  | circle s =>
    simp only [isShapeInSelection, ShapeFullyContained, decide_eq_true_eq, ge_iff_le]
  | line s =>
    simp only [isShapeInSelection, ShapeFullyContained, decide_eq_true_eq, ge_iff_le]
  | arrow s =>
    simp only [isShapeInSelection, ShapeFullyContained, decide_eq_true_eq, ge_iff_le]
  | pencil s =>
    cases hp : s.points with
    | nil => simp [isShapeInSelection, ShapeFullyContained, hp]
    | cons p ps =>
      simp only [isShapeInSelection, ShapeFullyContained, hp, decide_eq_true_eq, ge_iff_le,
        ne_eq, reduceCtorEq, not_false_eq_true, true_and]
      rw [le_foldl_min_iff, le_foldl_min_iff, foldl_max_le_iff, foldl_max_le_iff]
      constructor
      · rintro ⟨⟨h1p, h1⟩, ⟨h2p, h2⟩, ⟨h3p, h3⟩, ⟨h4p, h4⟩⟩ q hq
        rcases List.mem_cons.mp hq with rfl | hq
        · exact ⟨h1p, h2p, h3p, h4p⟩
        · exact ⟨h1 q.x (List.mem_map_of_mem Pt.x hq), h2 q.y (List.mem_map_of_mem Pt.y hq),
            h3 q.x (List.mem_map_of_mem Pt.x hq), h4 q.y (List.mem_map_of_mem Pt.y hq)⟩
      · intro h
        have hp0 := h p (List.mem_cons_self p ps)
        refine ⟨⟨hp0.1, ?_⟩, ⟨hp0.2.1, ?_⟩, ⟨hp0.2.2.1, ?_⟩, ⟨hp0.2.2.2, ?_⟩⟩ <;>
          · intro x hx
            obtain ⟨q, hq, rfl⟩ := List.mem_map.mp hx
            have := h q (List.mem_cons_of_mem p hq)
            tauto
  | text s =>
    cases context with
    | none => simp [isShapeInSelection, ShapeFullyContained]
    | some ctx =>
      simp only [isShapeInSelection, ShapeFullyContained, decide_eq_true_eq, ge_iff_le]

/-- C5: finishing a select-tool drag over empty space that exceeds 5px in
either axis replaces the selection with exactly the ids of the shapes fully
contained (per `isShapeInSelection`, proved equivalent to bounding-region
containment in the canvas-space marquee rectangle) — membership in the
selection is characterised accordingly — while a drag at or below 5px in
both axes ends with the empty selection (the mouse-down already deselected
everything and no marquee selection is committed). -/
theorem marquee_full_containment_and_threshold (sel : SelectionState) (startP endP : Pt)
    (shapes : List Shape) (offset : Pt) (scale : ℚ) (context : Option Ctx) :
    ((|endP.x - startP.x| > 5 ∨ |endP.y - startP.y| > 5) →
        (selectModeDragOnEmpty sel startP endP shapes offset scale context).selectedShapes =
          (shapes.filter (fun sh =>
            isShapeInSelection sh (marqueeRect startP endP) offset scale context)).map
            Shape.id ∧
        (∀ sid : String,
          sid ∈ (selectModeDragOnEmpty sel startP endP shapes offset scale
              context).selectedShapes ↔
            ∃ sh ∈ shapes, Shape.id sh = sid ∧
              ShapeFullyContained sh
                (canvasSelectionRect (marqueeRect startP endP) offset scale) context)) ∧
      ((|endP.x - startP.x| ≤ 5 ∧ |endP.y - startP.y| ≤ 5) →
        (selectModeDragOnEmpty sel startP endP shapes offset scale context).selectedShapes =
          []) := by
  have hfin : selectModeDragOnEmpty sel startP endP shapes offset scale context =
      finishSelection
        (SelectionState.mk [] true startP endP)
        shapes offset scale context := by
    simp [selectModeDragOnEmpty, clearSelection, startSelection, updateSelection]
  constructor
  · intro hthr
    have hsel : (selectModeDragOnEmpty sel startP endP shapes offset scale
        context).selectedShapes =
        (shapes.filter (fun sh =>
          isShapeInSelection sh (marqueeRect startP endP) offset scale context)).map
          Shape.id := by
      rw [hfin]
      simp only [finishSelection, marqueeRect]
      rw [if_neg (by simp), if_pos hthr]
      by_cases hf : (shapes.filter (fun sh =>
          isShapeInSelection sh
            { x := min startP.x endP.x, y := min startP.y endP.y,
              width := |endP.x - startP.x|, height := |endP.y - startP.y| }
            offset scale context)).length > 0
      · rw [if_pos hf]
      · rw [if_neg hf]
        have : (shapes.filter (fun sh =>
            isShapeInSelection sh
              { x := min startP.x endP.x, y := min startP.y endP.y,
                width := |endP.x - startP.x|, height := |endP.y - startP.y| }
              offset scale context)) = [] := by
          cases hl : (shapes.filter _) with
          | nil => rfl
          | cons a l => rw [hl] at hf; simp at hf
        rw [this]
        rfl
    refine ⟨hsel, ?_⟩
    intro sid
    rw [hsel]
    simp only [List.mem_map, List.mem_filter]
    constructor
    · rintro ⟨sh, ⟨hmem, hhit⟩, rfl⟩
      exact ⟨sh, hmem, rfl,
        (isShapeInSelection_iff_fullyContained sh (marqueeRect startP endP) offset scale
          context).mp hhit⟩
    · rintro ⟨sh, hmem, rfl, hcont⟩
      exact ⟨sh, ⟨hmem,
        (isShapeInSelection_iff_fullyContained sh (marqueeRect startP endP) offset scale
          context).mpr hcont⟩, rfl⟩
  · intro hthr
    rw [hfin]
    simp only [finishSelection]
    rw [if_neg (by simp), if_neg (by push_neg; exact hthr)]

/-- Witness for C5: a 100×100 drag from the origin selects (exactly) the
fully contained rectangle; a 3×2 drag ends with the empty selection even
though the prior selection was nonempty. -/
theorem marquee_full_containment_and_threshold_witness :
    ((|(100 : ℚ) - 0| > 5 ∨ |(100 : ℚ) - 0| > 5) ∧
      (selectModeDragOnEmpty (SelectionState.mk ["stale"] false ⟨0, 0⟩ ⟨0, 0⟩) ⟨0, 0⟩
          ⟨100, 100⟩
          [Shape.rectangle ⟨"in", 10, 10, 20, 20, "", none⟩,
           Shape.rectangle ⟨"out", 90, 90, 20, 20, "", none⟩]
          ⟨0, 0⟩ 1 none).selectedShapes =
        ([Shape.rectangle ⟨"in", 10, 10, 20, 20, "", none⟩,
          Shape.rectangle ⟨"out", 90, 90, 20, 20, "", none⟩].filter
            (fun sh =>
              isShapeInSelection sh (marqueeRect ⟨0, 0⟩ ⟨100, 100⟩) ⟨0, 0⟩ 1 none)).map
          Shape.id) ∧
      ((|(3 : ℚ) - 0| ≤ 5 ∧ |(2 : ℚ) - 0| ≤ 5) ∧
        (selectModeDragOnEmpty (SelectionState.mk ["stale"] false ⟨0, 0⟩ ⟨0, 0⟩) ⟨0, 0⟩
            ⟨3, 2⟩
            [Shape.rectangle ⟨"in", 10, 10, 20, 20, "", none⟩,
             Shape.rectangle ⟨"out", 90, 90, 20, 20, "", none⟩]
            ⟨0, 0⟩ 1 none).selectedShapes = []) :=
  ⟨⟨by norm_num,
    ((marquee_full_containment_and_threshold (SelectionState.mk ["stale"] false ⟨0, 0⟩ ⟨0, 0⟩)
        ⟨0, 0⟩ ⟨100, 100⟩
        [Shape.rectangle ⟨"in", 10, 10, 20, 20, "", none⟩,
         Shape.rectangle ⟨"out", 90, 90, 20, 20, "", none⟩]
        ⟨0, 0⟩ 1 none).1 (by norm_num)).1⟩,
   ⟨by norm_num,
    (marquee_full_containment_and_threshold (SelectionState.mk ["stale"] false ⟨0, 0⟩ ⟨0, 0⟩)
        ⟨0, 0⟩ ⟨3, 2⟩
        [Shape.rectangle ⟨"in", 10, 10, 20, 20, "", none⟩,
         Shape.rectangle ⟨"out", 90, 90, 20, 20, "", none⟩]
        ⟨0, 0⟩ 1 none).2 (by norm_num)⟩⟩

/-- C7: within a drawing session, `finishDrawing` yields a shape for
rectangle/circle exactly when both canvas-space extents of the drag exceed 5,
always yields a shape for line/arrow (zero-length included), and yields a
pencil stroke exactly when at least two points were accumulated. -/
theorem finishDrawing_size_gates (sqrtFn : ℚ → ℚ) (freshId : String)
    (screenToCanvasFn : Pt → Pt) (st : DrawingState) (hdraw : st.isDrawing = true) :
    ((finishDrawing sqrtFn freshId "rectangle" screenToCanvasFn st ≠ none ↔
        |(screenToCanvasFn st.drawEnd).x - (screenToCanvasFn st.drawStart).x| > 5 ∧
          |(screenToCanvasFn st.drawEnd).y - (screenToCanvasFn st.drawStart).y| > 5) ∧
      (finishDrawing sqrtFn freshId "circle" screenToCanvasFn st ≠ none ↔
        |(screenToCanvasFn st.drawEnd).x - (screenToCanvasFn st.drawStart).x| > 5 ∧
          |(screenToCanvasFn st.drawEnd).y - (screenToCanvasFn st.drawStart).y| > 5)) ∧
      (finishDrawing sqrtFn freshId "line" screenToCanvasFn st ≠ none ∧
        finishDrawing sqrtFn freshId "arrow" screenToCanvasFn st ≠ none) ∧
      (finishDrawing sqrtFn freshId "pencil" screenToCanvasFn st ≠ none ↔
        st.currentPencilPoints.length ≥ 2) := by
  refine ⟨⟨?_, ?_⟩, ⟨?_, ?_⟩, ?_⟩
  · simp [finishDrawing, hdraw]
  · simp [finishDrawing, hdraw]
  · simp [finishDrawing, hdraw]
  · simp [finishDrawing, hdraw]
  · simp [finishDrawing, hdraw]
    omega

/-- C8: the Rectangle factory normalises any two drag corners to the top-left
corner with nonnegative extents (`x = min`, `y = min`, `width = |dx|`,
`height = |dy|`); swapping the corners yields the identical shape (the model
takes the freshly generated id as a parameter, so "identical apart from the
id" is equality at the same id); concretely both (10,10)→(50,30) and
(50,30)→(10,10) give `{x:10, y:10, width:40, height:20}`. -/
theorem createRectangle_normalizes (id : String) (sx sy ex ey : ℚ) (sc : String)
    (fc : Option String) :
    ((createRectangle id sx sy ex ey sc fc).x = min sx ex ∧
      (createRectangle id sx sy ex ey sc fc).y = min sy ey ∧
      (createRectangle id sx sy ex ey sc fc).width = |ex - sx| ∧
      (createRectangle id sx sy ex ey sc fc).height = |ey - sy|) ∧
      (0 ≤ (createRectangle id sx sy ex ey sc fc).width ∧
        0 ≤ (createRectangle id sx sy ex ey sc fc).height) ∧
      createRectangle id sx sy ex ey sc fc = createRectangle id ex ey sx sy sc fc ∧
      (createRectangle id 10 10 50 30 sc fc = RectangleShape.mk id 10 10 40 20 sc fc ∧
        createRectangle id 50 30 10 10 sc fc = RectangleShape.mk id 10 10 40 20 sc fc) := by
  refine ⟨⟨rfl, rfl, rfl, rfl⟩, ⟨abs_nonneg _, abs_nonneg _⟩, ?_, ?_, ?_⟩
  · simp [createRectangle, min_comm, abs_sub_comm]
  · simp only [createRectangle, RectangleShape.mk.injEq]
    norm_num
  · simp only [createRectangle, RectangleShape.mk.injEq]
    norm_num

/-- Witness for C7: a drag from screen (0,0) to (10,20) under the identity
conversion; both extents exceed 5, no pencil points accumulated. -/
theorem finishDrawing_size_gates_witness :
    (DrawingState.mk true ⟨0, 0⟩ ⟨10, 20⟩ []).isDrawing = true ∧
      ((finishDrawing (fun q => q) "w" "rectangle" (fun p => p)
            (DrawingState.mk true ⟨0, 0⟩ ⟨10, 20⟩ []) ≠ none ↔
          |(10 : ℚ) - 0| > 5 ∧ |(20 : ℚ) - 0| > 5) ∧
        (finishDrawing (fun q => q) "w" "circle" (fun p => p)
            (DrawingState.mk true ⟨0, 0⟩ ⟨10, 20⟩ []) ≠ none ↔
          |(10 : ℚ) - 0| > 5 ∧ |(20 : ℚ) - 0| > 5)) ∧
      (finishDrawing (fun q => q) "w" "line" (fun p => p)
          (DrawingState.mk true ⟨0, 0⟩ ⟨10, 20⟩ []) ≠ none ∧
        finishDrawing (fun q => q) "w" "arrow" (fun p => p)
          (DrawingState.mk true ⟨0, 0⟩ ⟨10, 20⟩ []) ≠ none) ∧
      (finishDrawing (fun q => q) "w" "pencil" (fun p => p)
          (DrawingState.mk true ⟨0, 0⟩ ⟨10, 20⟩ []) ≠ none ↔
        ([] : List Pt).length ≥ 2) :=
  ⟨rfl,
   finishDrawing_size_gates (fun q => q) "w" (fun p => p)
     (DrawingState.mk true ⟨0, 0⟩ ⟨10, 20⟩ []) rfl⟩

/-- C6 (code bug): on text `"ab\ncd"` the ArrowDown step from caret 1 lands
on 4 as the spec says, but the ArrowUp step from caret 4 — which the spec
says moves to the same column of the previous line, caret 1 — computes the
out-of-range caret −2: `prevLineStart` subtracts the current line's length
again and comes out as −3 instead of 0.  (The refactored `Canvas` keyboard
handler drops ArrowUp/ArrowDown entirely, leaving the caret unchanged.) -/
theorem arrowUp_caret_misplaced :
    arrowKeyNewCursorPos ['a', 'b', '\n', 'c', 'd'] 1 false = 4 ∧
      arrowKeyNewCursorPos ['a', 'b', '\n', 'c', 'd'] 4 true = -2 ∧
      arrowKeyNewCursorPos ['a', 'b', '\n', 'c', 'd'] 4 true ≠ 1 := by
  refine ⟨?_, ?_, ?_⟩ <;> decide
